import Mathlib

/-!
Shallow embedding of the message-composition and word-substitution core of
the Corporate Buzzword Generator API (src/app.py), together with theorems
settling the frozen claims about it.

Conventions:
- Python strings are modelled as Lean `String` / `List Char`.
- `random.choice(items)` is modelled by `pick items k` for an arbitrary
  index `k : Nat`: every possible outcome of the random draw is `pick items k`
  for some `k`, and every `pick items k` is a possible outcome.
- Regex constructs are embedded by executable functions specialised to the
  exact patterns occurring in the source (word-boundary anchored literal
  words, one optional character, one negative lookahead).
-/

namespace Buzz

/-- Python whitespace predicate: the set of characters matched by the regex
class backslash-s on `str` and stripped by `str.strip()` with no argument. -/
def pyIsSpace (c : Char) : Bool :=
  c == ' ' || c == '\t' || c == '\n' || c == '\r' || c == '\x0b' || c == '\x0c' ||
  c == '\x1c' || c == '\x1d' || c == '\x1e' || c == '\x1f' ||
  c == '\u0085' || c == '\u00a0' || c == '\u1680' ||
  ('\u2000' <= c && c <= '\u200a') || c == '\u2028' || c == '\u2029' ||
  c == '\u202f' || c == '\u205f' || c == '\u3000'

/-- The character set of the Python call `x.strip(" -*\t")` in `to_bullets`. -/
def isStripChar (c : Char) : Bool :=
  c == ' ' || c == '-' || c == '*' || c == '\t'

/-- Python `str.strip`: drop characters satisfying `p` from both ends. -/
def pyStrip (p : Char → Bool) (l : List Char) : List Char :=
  ((l.dropWhile p).reverse.dropWhile p).reverse

/-- String-level Python `str.strip()` (whitespace both ends). -/
def pyStripStr (s : String) : String :=
  String.mk (pyStrip pyIsSpace s.data)

/-- Does the list start with a whitespace, a hyphen, a whitespace window?
This is the 3-character window matched by the regex alternative
whitespace-hyphen-whitespace in the split pattern of `to_bullets`. -/
def isSDSAt : List Char → Bool
  | c :: d :: e :: _ => pyIsSpace c && d == '-' && pyIsSpace e
  | _ => false

/-- Is there a whitespace-hyphen-whitespace window anywhere in the list? -/
def hasSDS : List Char → Bool
  | [] => false
  | c :: cs => isSDSAt (c :: cs) || hasSDS cs

/-- Prepend a character onto the first fragment of a fragment list. -/
def consHead (c : Char) : List (List Char) → List (List Char)
  | [] => [[c]]
  | h :: t => (c :: h) :: t

/-- Embedding of `re.split(r"\n|;|\s-\s", text)`: scan left to right; a
newline or semicolon splits consuming one character (the regex alternation
tries the newline alternative first, so a newline is always a 1-character
delimiter); otherwise a whitespace-hyphen-whitespace window splits consuming
three characters; otherwise the character joins the current fragment. The
first argument counts characters still to be consumed by a 3-character
delimiter match (kept explicit so the recursion is structural). -/
def splitGo : Nat → List Char → List (List Char)
  | k + 1, _ :: cs => splitGo k cs
  | _, [] => [[]]
  | 0, c :: cs =>
    if c == '\n' || c == ';' then [] :: splitGo 0 cs
    else if isSDSAt (c :: cs) then [] :: splitGo 2 cs
    else consHead c (splitGo 0 cs)

/-- The split itself: scan with no pending skip. -/
def splitRaw (l : List Char) : List (List Char) := splitGo 0 l

/-- Case-insensitive dedup keeping first occurrences, as the seen-set loop
of `to_bullets`; `seen` holds the lowercased keys already emitted. -/
def dedupAux (seen : List (List Char)) : List (List Char) → List (List Char)
  | [] => []
  | b :: bs =>
    let k := b.map Char.toLower
    if k ∈ seen then dedupAux seen bs
    else b :: dedupAux (k :: seen) bs

/-- Character-level `to_bullets` (src/app.py lines 330-341): split on
newline / semicolon / spaced hyphen, keep fragments that are non-empty and
contain a non-whitespace character, strip the characters space, hyphen,
star and tab from both ends, dedup case-insensitively keeping first
occurrences, cap at 8 items. -/
def to_bulletsData (t : List Char) : List (List Char) :=
  let raw := splitRaw t
  let bullets := (raw.filter (fun x => !x.isEmpty && x.any (fun c => !pyIsSpace c))).map
    (pyStrip isStripChar)
  (dedupAux [] bullets).take 8

/-- `to_bullets` on strings. -/
def to_bullets (s : String) : List String :=
  (to_bulletsData s.data).map String.mk

/-- Python `"sep".join(parts)`. -/
def joinSep (sep : String) : List String → String
  | [] => ""
  | [s] => s
  | s :: rest => s ++ sep ++ joinSep sep rest

/-- Character-level newline join, mirroring `joinSep "\n"`. -/
def joinNLData : List (List Char) → List Char
  | [] => []
  | [x] => x
  | x :: xs => x ++ '\n' :: joinNLData xs

/-- Newline join of bullet lists, as used when re-feeding `to_bullets`. -/
def joinNL (bs : List String) : String := joinSep "\n" bs




/-! ## Lexical substitution engine (src/app.py lines 227-274 and 344-351)

Each table entry compiles `re.sub(rf"\b{pat}\b", rep, out, flags=re.IGNORECASE)`
for its pattern `pat`. The patterns occurring in `BUZZWORD_MAP_LEVELS` are
literal words (possibly with a space), one optional final character
(`notes?`) and one negative lookahead (`use (?!case)`), so a pattern is
embedded as a list of items: word boundary, literal character (matched
case-insensitively), optional character (greedy with backtracking, as the
regex engine), negative lookahead (case-insensitive, consuming nothing). -/

inductive RItem
  | bnd
  | lit (c : Char)
  | opt (c : Char)
  | negLook (cs : List Char)

/-- Python regex word character (ASCII fragment, which covers every
character appearing in the phrase banks and patterns). -/
def isWordChar (c : Char) : Bool := c.isAlphanum || c == '_'

def isWordOpt : Option Char → Bool
  | none => false
  | some c => isWordChar c

/-- Case-insensitive character comparison, as re.IGNORECASE. -/
def lowEq (a b : Char) : Bool := a.toLower == b.toLower

/-- Does `s` start with `p`, case-insensitively? Used for the negative
lookahead `(?!case)`. -/
def startsWithCI (p s : List Char) : Bool :=
  (s.take p.length).map Char.toLower == p.map Char.toLower

/-- Match a pattern at the start of `s`; `prev` is the character just before
the match position (for word boundaries). On success, return the suffix
after the consumed characters together with the last consumed character. -/
def matchItems : List RItem → Option Char → List Char → Option (List Char × Option Char)
  | [], prev, s => some (s, prev)
  | RItem.bnd :: rest, prev, s =>
    if isWordOpt prev != isWordOpt s.head? then matchItems rest prev s else none
  | RItem.lit _ :: _, _, [] => none
  | RItem.lit c :: rest, _, x :: xs =>
    if lowEq x c then matchItems rest (some x) xs else none
  | RItem.opt _ :: rest, prev, [] => matchItems rest prev []
  | RItem.opt c :: rest, prev, x :: xs =>
    if lowEq x c then
      match matchItems rest (some x) xs with
      | some r => some r
      | none => matchItems rest prev (x :: xs)
    else matchItems rest prev (x :: xs)
  | RItem.negLook p :: rest, prev, s =>
    if startsWithCI p s then none else matchItems rest prev s

/-- One pattern-replacement pair of a substitution tier. The replacement is
inserted verbatim, as `re.sub` does with a plain replacement string. -/
structure Rule where
  items : List RItem
  rep : String

/-- The scan of `re.sub`: try the pattern at each position from the left;
on a match, emit the replacement and continue after the consumed text (all
patterns of the table consume at least one character, so a match that
consumes nothing is treated as no match); otherwise keep the character and
move on. The fuel is the length of the list, enough for the whole scan. -/
def substScan (r : Rule) : Nat → Option Char → List Char → List Char
  | 0, _, s => s
  | _ + 1, _, [] => []
  | fuel + 1, prev, c :: cs =>
    match matchItems r.items prev (c :: cs) with
    | some (rest, p) =>
      if rest.length < cs.length + 1 then r.rep.data ++ substScan r fuel p rest
      else c :: substScan r fuel (some c) cs
    | none => c :: substScan r fuel (some c) cs

/-- `re.sub(rf"\b{pat}\b", rep, s, flags=re.IGNORECASE)` for one table entry. -/
def substRule (r : Rule) (s : String) : String :=
  String.mk (substScan r s.data.length none s.data)

/-- A word-boundary anchored literal pattern with its replacement. -/
def wordRule (w rep : String) : Rule :=
  ⟨RItem.bnd :: w.data.map RItem.lit ++ [RItem.bnd], rep⟩

/-- BUZZWORD_MAP_LEVELS (src/app.py lines 227-274): level 0 is empty, the
levels 1-3 hold the pattern-replacement pairs in the insertion order of the
source dictionaries. -/
def BUZZWORD_MAP_LEVELS : List (List Rule) :=
  [ [],
    [ wordRule "help" "support",
      wordRule "ask" "request",
      wordRule "finish" "complete",
      wordRule "start" "kick off",
      wordRule "check" "review",
      wordRule "talk" "sync",
      wordRule "plan" "roadmap",
      wordRule "fix" "resolve",
      wordRule "problem" "issue",
      wordRule "delay" "slippage",
      wordRule "fast" "expedited",
      wordRule "slow" "deprioritized",
      wordRule "meet" "connect" ],
    [ wordRule "do" "execute",
      wordRule "make" "build",
      wordRule "try" "explore",
      wordRule "change" "iterate",
      wordRule "improve" "optimize",
      wordRule "decide" "align on a decision",
      wordRule "team" "cross-functional team",
      wordRule "work together" "collaborate",
      wordRule "because" "so that",
      wordRule "goal" "north star",
      wordRule "idea" "proposal" ],
    [ wordRule "use" "leverage",
      ⟨RItem.bnd :: "use ".data.map RItem.lit ++ [RItem.negLook "case".data, RItem.bnd],
        "utilize"⟩,
      wordRule "result" "outcome",
      wordRule "plan" "strategic roadmap",
      wordRule "meeting" "working session",
      wordRule "deadline" "target date",
      ⟨RItem.bnd :: "note".data.map RItem.lit ++ [RItem.opt 's', RItem.bnd],
        "takeaways"⟩,
      wordRule "OK" "actionable",
      wordRule "good" "impactful",
      wordRule "bad" "non-optimal",
      wordRule "next" "forward-looking" ] ]

/-- Apply every rule of one tier, in the defined order. -/
def applyRules (rules : List Rule) (s : String) : String :=
  rules.foldl (fun acc r => substRule r acc) s

/-- `apply_buzzwords` (src/app.py lines 344-351): intensity 0 returns the
input; otherwise the tiers 1..intensity are applied in ascending order. -/
def apply_buzzwords (s : String) (intensity : Nat) : String :=
  if intensity = 0 then s
  else (List.range' 1 intensity).foldl
    (fun acc lvl => applyRules (BUZZWORD_MAP_LEVELS.getD lvl []) acc) s





/-! ## Parameter enumerations and phrase banks (src/app.py lines 92-106, 154-323) -/

inductive Tone
  | formal | casual | executive | empathetic | assertive | friendly | persuasive
deriving DecidableEq

inductive Medium
  | email | slack | teams | whatsapp | text | doc
deriving DecidableEq

inductive Length
  | short | medium | long
deriving DecidableEq

inductive Locale
  | US | IN | UK | AU | SG | Generic
deriving DecidableEq

/-- The smiley character of the friendly opener. -/
def smiley : String := String.singleton (Char.ofNat 128578)

/-- OPENERS (src/app.py lines 182-225). -/
def OPENERS : Tone → List String
  | Tone.formal =>
    ["Hope you are doing well.", "I wanted to reach out regarding the following.",
     "Following up on the item below.", "Sharing a quick update."]
  | Tone.casual =>
    ["Quick update:", "Heads up—", "FYI—", "Ping on this:"]
  | Tone.executive =>
    ["Executive summary:", "At a glance:", "Top line:", "Key call-outs:"]
  | Tone.empathetic =>
    ["I understand this is time-sensitive.", "Appreciate the effort here.",
     "Thanks for your patience—", "Completely understand the context."]
  | Tone.assertive =>
    ["We need a decision to unblock progress.", "Action required to stay on track.",
     "To hit our target, we need the following.", "Flagging a blocker:"]
  | Tone.friendly =>
    ["Quick one " ++ smiley, "Hope your day’s going well!",
     "Just checking in—", "Sharing a quick note—"]
  | Tone.persuasive =>
    ["Here’s why this approach works:", "The data strongly supports this.",
     "This will help us deliver faster with less risk.", "Recommended path forward:"]

/-- SIGN_OFF (src/app.py lines 154-180). -/
def SIGN_OFF : Medium → List String
  | Medium.email =>
    ["Best regards,", "Kind regards,", "Thanks,", "Sincerely,", "Warm regards,"]
  | Medium.slack => ["Thanks!", "Appreciate it!", "Cheers!", "— thanks"]
  | Medium.teams => ["Thanks!", "Appreciated.", "Cheers!"]
  | Medium.whatsapp => ["Thanks!", "Much appreciated.", "Cheers!"]
  | Medium.text => ["Thanks!", "Appreciate it."]
  | Medium.doc => [""]

/-- EMAIL_SUBJECT_PREFIX (src/app.py lines 276-284). -/
def EMAIL_SUBJECT_PREFIX : Tone → List String
  | Tone.formal => ["Update:", "Request:", "Follow-up:", "Action needed:"]
  | Tone.executive => ["Summary:", "Heads-up:", "Decision needed:", "Risks & Next Steps:"]
  | Tone.assertive => ["Blocker:", "Decision required:", "Deadline risk:"]
  | Tone.empathetic =>
    ["Appreciate your help:", "Thanks & quick ask:", "Thanks for the support:"]
  | Tone.casual => ["Quick update:", "Small ask:", "Heads-up:"]
  | Tone.friendly => ["Hey—quick one:", "Tiny ask:", "Quick sync?"]
  | Tone.persuasive => ["Proposal:", "Why this works:", "Recommended path:"]

/-- The politeness lists of LOCALE_FLAVOR (src/app.py lines 286-323). -/
def localePoliteness : Locale → List String
  | Locale.IN =>
    ["Kindly let me know your thoughts.", "Please advise if this works for you.",
     "Requesting your approval to proceed."]
  | Locale.US =>
    ["Would love your feedback.", "Let me know if you have any questions.",
     "If you\x27re good with this, I’ll proceed."]
  | Locale.UK =>
    ["Would you be happy to proceed?", "Grateful for your thoughts.",
     "Do let me know if that suits."]
  | Locale.Generic => []
  | Locale.AU => ["Keen to hear your thoughts."]
  | Locale.SG => ["Appreciate your advice."]

/-- The greetings lists of LOCALE_FLAVOR (src/app.py lines 286-323). -/
def localeGreetings : Locale → List String
  | Locale.IN => ["Hope you are doing well.", "Hope you’re keeping well."]
  | Locale.US => ["Hope you\x27re doing well.", "Hope your week is going well."]
  | Locale.UK => ["Trust you\x27re well.", "Hope all\x27s well."]
  | Locale.Generic => []
  | Locale.AU => ["Hope you’re well."]
  | Locale.SG => ["Hope you’re well."]

/-- `pick` (src/app.py lines 326-327): `random.choice(items) if items else ""`.
The index `k` ranges over all naturals; `k % items.length` reaches every
element, so the theorems quantified over `k` cover every possible outcome
of the random draw. -/
def pick (items : List String) (k : Nat) : String :=
  items.getD (k % items.length) ""

/-- The indices of the random draws made during one `compose_message` call. -/
structure Oracle where
  opener : Nat
  greeting : Nat
  politeness : Nat
  signoff : Nat
  subject : Nat

/-- Removal of the leading `[-•\s]+` run in `make_subject` (line 358). -/
def stripLeadMarks (l : List Char) : List Char :=
  l.dropWhile (fun c => c == '-' || c == '•' || pyIsSpace c)

/-- `re.sub(r"\.$", "", core)` (line 359): one period is removed at the
very end, or just before a final newline (the regex dollar matches there
too); otherwise the text is unchanged. -/
def stripTrailDot (l : List Char) : List Char :=
  if l.getLast? = some '.' then l.dropLast
  else if l.reverse.take 2 = ['\n', '.'] then l.dropLast.dropLast ++ ['\n']
  else l

/-- The core part of the subject (lines 356-360): first bullet or "Update",
leading marker run removed, one trailing period removed, cut to 72
characters. -/
def subjectCore (bullets : List String) : List Char :=
  (stripTrailDot (stripLeadMarks (bullets.headD "Update").data)).take 72

/-- A dash or the bullet marker, the two characters the spec says the
subject core must not start with. -/
def isDashBullet (c : Char) : Bool := c == '-' || c == '•'

/-- `make_subject` (src/app.py lines 354-360). -/
def make_subject (tone : Tone) (bullets : List String) (k : Nat) : String :=
  pyStripStr (pick (EMAIL_SUBJECT_PREFIX tone) k ++ " " ++ String.mk (subjectCore bullets))

/-- `sign_off` (src/app.py lines 363-364). -/
def sign_off (medium : Medium) (k : Nat) : String :=
  pick (SIGN_OFF medium) k

/-- The rendered bullet block (line 395): up to 5 bullets, each with a
bullet-marker prefix, newline-joined. -/
def bulletBlock (bullets : List String) : String :=
  joinSep "\n" ((bullets.take 5).map (fun b => "• " ++ b))

/-- The body parts appended before the sign-off step of `compose_message`
(src/app.py lines 383-413): optional greeting, optional opener, optional
bullet block, core summary by length, optional politeness line. -/
def preParts (text : String) (tone : Tone) (medium : Medium) (len : Length)
    (locale : Locale) (include_bullets : Bool) (o : Oracle) : List String :=
  let bullets := to_bullets text
  let opener := pick (OPENERS tone) o.opener
  let greeting := pick (localeGreetings locale) o.greeting
  let politeness := pick (localePoliteness locale) o.politeness
  let summary := if bullets ≠ [] then joinSep " " (bullets.take 2) else text
  let core :=
    match len with
    | Length.short => summary ++ "."
    | Length.medium =>
      summary ++ ". Requesting your input on the above so we can proceed without delay."
    | Length.long =>
      summary ++ ". Here\x27s the context: "
        ++ (if bullets.length > 2 then joinSep ", " ((bullets.drop 2).take 3) else "see above")
        ++ ". Next steps: we\x27ll align on owners & timelines after your feedback."
  (if (medium = Medium.email ∨ medium = Medium.doc) ∧ greeting ≠ "" then [greeting] else [])
    ++ (if opener ≠ "" then [opener] else [])
    ++ (if (include_bullets = true
          ∨ (tone = Tone.executive ∧ (medium = Medium.email ∨ medium = Medium.doc)))
          ∧ bullets ≠ [] then [bulletBlock bullets] else [])
    ++ [core]
    ++ (if politeness ≠ "" then [politeness] else [])

/-- All body parts of `compose_message` (lines 383-417): the parts before
the sign-off, then the sign-off when it is non-empty. -/
def body_parts (text : String) (tone : Tone) (medium : Medium) (len : Length)
    (locale : Locale) (include_bullets : Bool) (o : Oracle) : List String :=
  preParts text tone medium len locale include_bullets o
    ++ (if sign_off medium o.signoff ≠ "" then [sign_off medium o.signoff] else [])

/-- The response value of one composition. -/
structure MessageVariant where
  subject : Option String
  message : String
deriving DecidableEq

/-- `compose_message` (src/app.py lines 367-422): join the non-empty body
parts with blank lines; attach a subject exactly when the medium is email
and `add_subject` is set. -/
def compose_message (text : String) (tone : Tone) (medium : Medium) (len : Length)
    (locale : Locale) (include_bullets add_subject : Bool) (o : Oracle) : MessageVariant :=
  { subject :=
      if medium = Medium.email ∧ add_subject = true
      then some (make_subject tone (to_bullets text) o.subject) else none
    message :=
      joinSep "\n\n"
        ((body_parts text tone medium len locale include_bullets o).filter
          (fun p => !(p == ""))) }

/-! ## Reply suggestions (src/app.py lines 483-520) -/

inductive RStyle
  | neutral | positive | pushback | clarify | acknowledge
deriving DecidableEq

/-- Python `str.replace(pat, rep)`: replace every non-overlapping
occurrence, scanning from the left. Fuel is the length of the list. -/
def replaceAllL (pat rep : List Char) : Nat → List Char → List Char
  | 0, s => s
  | _ + 1, [] => []
  | fuel + 1, c :: cs =>
    if pat ≠ [] ∧ (c :: cs).take pat.length = pat then
      rep ++ replaceAllL pat rep fuel ((c :: cs).drop pat.length)
    else c :: replaceAllL pat rep fuel cs

/-- String-level Python `str.replace`. -/
def pyReplace (s pat rep : String) : String :=
  String.mk (replaceAllL pat.data rep.data s.data.length s.data)

/-- The style banks of `reply_suggestions` (src/app.py lines 485-511). -/
def style_map : RStyle → List String
  | RStyle.neutral =>
    ["Thanks for the update—got it.",
     "Acknowledged. I’ll keep you posted.",
     "Noted, thanks."]
  | RStyle.positive =>
    ["This looks great—thanks for pushing it forward!",
     "Nice progress—appreciate the momentum.",
     "Awesome—thanks for the clarity!"]
  | RStyle.pushback =>
    ["Thanks—timeline is tight. Can we prioritize the critical path and revisit the rest next sprint?",
     "Appreciate it. Given constraints, proposing we de-scope X to hit the target date—thoughts?",
     "Understood. For feasibility, can we align on the must-haves first?"]
  | RStyle.clarify =>
    ["Thanks—could you clarify the owner for the next step?",
     "Helpful. What’s the expected date for the handoff?",
     "Got it—what’s the definition of done here?"]
  | RStyle.acknowledge =>
    ["Received, thanks.", "Acknowledged—will do.", "Noted—appreciate it."]

/-- `reply_suggestions` (src/app.py lines 484-520): take the first
`min(suggestions, len(base))` entries of the style bank, and for slack or
teams replace every em-dash with a spaced hyphen. -/
def reply_suggestions (style : RStyle) (medium : Medium) (suggestions : Nat) : List String :=
  let base := style_map style
  let n := min suggestions base.length
  let replies := base.take n
  if medium = Medium.slack ∨ medium = Medium.teams then
    replies.map (fun r => pyReplace r "—" " - ")
  else replies

/-! ## Claims -/

/-- C1, counterexample: at intensity 3, the input "use case" does not keep
its word "use" intact: it comes out as "leverage case", because the
unguarded tier-3 entry for "use" is applied before the entry guarded by the
negative lookahead. -/
theorem c1_use_case_replaced :
    apply_buzzwords "use case" 3 = "leverage case"
    ∧ (apply_buzzwords "use case" 3 == "use case") = false := by
  exact ⟨by decide, by decide⟩

/-- C1, amended: the tier-3 table applies its unguarded "use" entry first,
so "use" is replaced by "leverage" even when followed by "case"; the
guarded entry, taken alone, would indeed leave "use case" unchanged, but it
is applied second and never fires. -/
theorem c1_amended_unguarded_first :
    substRule ((BUZZWORD_MAP_LEVELS.getD 3 []).getD 0 (wordRule "" "")) "use case"
        = "leverage case"
    ∧ substRule ((BUZZWORD_MAP_LEVELS.getD 3 []).getD 1 (wordRule "" "")) "use case"
        = "use case"
    ∧ apply_buzzwords "We use case studies" 3 = "We leverage case studies" := by
  exact ⟨by decide, by decide, by decide⟩

/-- C2: the substitution engine is cumulative: for every string, the
intensity-2 output is the tier-2 rules (in their defined order) applied to
the intensity-1 output. -/
theorem c2_cumulative (s : String) :
    apply_buzzwords s 2
      = applyRules (BUZZWORD_MAP_LEVELS.getD 2 []) (apply_buzzwords s 1) := by
  unfold apply_buzzwords
  rw [if_neg (by decide : ¬(2 = 0)), if_neg (by decide : ¬(1 = 0))]
  have h2 : List.range' 1 2 = [1, 2] := rfl
  have h1 : List.range' 1 1 = [1] := rfl
  rw [h1, h2]
  simp only [List.foldl_cons, List.foldl_nil]

/-- C8: `to_bullets` on the exact input "a; b - c\nA" returns the three
bullets a, b, c; the trailing "A" is dropped by case-insensitive
deduplication. -/
theorem c8_concrete_bullets : to_bullets "a; b - c\nA" = ["a", "b", "c"] := by
  decide

/-- C9: pushback with 2 suggestions returns exactly the first two entries
of the pushback bank; the em-dash is kept for email and replaced by a
spaced hyphen for slack and teams. -/
theorem c9_pushback_two :
    reply_suggestions RStyle.pushback Medium.email 2
      = ["Thanks—timeline is tight. Can we prioritize the critical path and revisit the rest next sprint?",
         "Appreciate it. Given constraints, proposing we de-scope X to hit the target date—thoughts?"]
    ∧ reply_suggestions RStyle.pushback Medium.email 2 = (style_map RStyle.pushback).take 2
    ∧ (reply_suggestions RStyle.pushback Medium.email 2).all
        (fun r => r.data.contains '—') = true
    ∧ reply_suggestions RStyle.pushback Medium.slack 2
      = ["Thanks - timeline is tight. Can we prioritize the critical path and revisit the rest next sprint?",
         "Appreciate it. Given constraints, proposing we de-scope X to hit the target date - thoughts?"]
    ∧ reply_suggestions RStyle.pushback Medium.teams 2
      = reply_suggestions RStyle.pushback Medium.slack 2
    ∧ (reply_suggestions RStyle.pushback Medium.slack 2).all
        (fun r => !(r.data.contains '—')) = true := by
  refine ⟨by decide, by decide, by decide, by decide, by decide, by decide⟩

/-! ### Helper lemmas about pick, strip and friends -/

theorem pick_mem (items : List String) (k : Nat) (h : items ≠ []) :
    pick items k ∈ items := by
  have hl : 0 < items.length := List.length_pos.mpr h
  have hk : k % items.length < items.length := Nat.mod_lt _ hl
  unfold pick
  rw [List.getD_eq_getElem?_getD, List.getElem?_eq_getElem hk]
  exact List.getElem_mem hk

theorem any_dropWhile (p : Char → Bool) (l : List Char)
    (h : l.any (fun c => !p c) = true) :
    (l.dropWhile p).any (fun c => !p c) = true := by
  induction l with
  | nil => simpa using h
  | cons c cs ih =>
    rw [List.dropWhile_cons]
    by_cases hc : p c = true
    · rw [if_pos hc]
      apply ih
      simpa [List.any_cons, hc] using h
    · rw [if_neg hc]
      exact h

theorem pyStrip_ne_nil (p : Char → Bool) (l : List Char)
    (h : l.any (fun c => !p c) = true) : pyStrip p l ≠ [] := by
  intro he
  unfold pyStrip at he
  have h1 := any_dropWhile p l h
  have h2 : (l.dropWhile p).reverse.any (fun c => !p c) = true := by
    rw [List.any_reverse]; exact h1
  have h3 := any_dropWhile p _ h2
  have h4 : (l.dropWhile p).reverse.dropWhile p = [] :=
    List.reverse_eq_nil_iff.mp he
  rw [h4] at h3
  simp at h3

theorem mk_ne_empty (l : List Char) (h : l ≠ []) : (String.mk l == "") = false := by
  cases l with
  | nil => exact absurd rfl h
  | cons c cs => rfl

theorem bank_prefix_nonspace (tone : Tone) (k : Nat) :
    (pick (EMAIL_SUBJECT_PREFIX tone) k).data.any (fun c => !pyIsSpace c) = true := by
  have h1 : EMAIL_SUBJECT_PREFIX tone ≠ [] := by cases tone <;> decide
  have h3 : ∀ s ∈ EMAIL_SUBJECT_PREFIX tone,
      s.data.any (fun c => !pyIsSpace c) = true := by
    cases tone <;> decide
  exact h3 _ (pick_mem _ k h1)

theorem make_subject_ne_empty (tone : Tone) (bullets : List String) (k : Nat) :
    (make_subject tone bullets k == "") = false := by
  unfold make_subject pyStripStr
  apply mk_ne_empty
  apply pyStrip_ne_nil
  rw [String.data_append, String.data_append, List.any_append, List.any_append,
    bank_prefix_nonspace]
  rfl

theorem str_ne_empty (s : String) (h : s.data ≠ []) : (s == "") = false := by
  cases s with
  | mk l => exact mk_ne_empty l h

theorem joinSep_cons_data (sep : String) (x : String) (xs : List String) :
    ∃ t, (joinSep sep (x :: xs)).data = x.data ++ t := by
  cases xs with
  | nil => exact ⟨[], by simp [joinSep]⟩
  | cons y ys =>
    exact ⟨sep.data ++ (joinSep sep (y :: ys)).data,
      by simp [joinSep, String.data_append]⟩

theorem headD_dropWhile (p : Char → Bool) (l : List Char) (hd : p 'x' = false) :
    p ((l.dropWhile p).headD 'x') = false := by
  induction l with
  | nil => simpa using hd
  | cons c cs ih =>
    rw [List.dropWhile_cons]
    by_cases hc : p c = true
    · rw [if_pos hc]; exact ih
    · rw [if_neg hc]
      simpa using hc

theorem headD_stripTrailDot (l : List Char)
    (h : isDashBullet (l.headD 'x') = false) :
    isDashBullet ((stripTrailDot l).headD 'x') = false := by
  unfold stripTrailDot
  split_ifs with h1 h2
  · cases l with
    | nil => simpa using h
    | cons c cs =>
      cases cs with
      | nil => rfl
      | cons d ds =>
        rw [List.dropLast_cons_of_ne_nil (by simp)]
        simpa using h
  · cases l with
    | nil => simp at h2
    | cons c cs =>
      cases cs with
      | nil => simp at h2
      | cons d ds =>
        cases ds with
        | nil =>
          rfl
        | cons e es =>
          rw [List.dropLast_cons_of_ne_nil (by simp)]
          have hne : (d :: e :: es).dropLast ≠ [] := by
            rw [List.dropLast_cons_of_ne_nil (by simp)]
            simp
          rw [List.dropLast_cons_of_ne_nil hne]
          simpa using h
  · exact h

theorem headD_take72 (l : List Char) (h : isDashBullet (l.headD 'x') = false) :
    isDashBullet ((l.take 72).headD 'x') = false := by
  cases l with
  | nil => simpa using h
  | cons c cs =>
    rw [show (72 : Nat) = 71 + 1 from rfl, List.take_succ_cons]
    simpa using h

theorem subjectCore_no_lead_mark (bullets : List String) :
    isDashBullet ((subjectCore bullets).headD 'x') = false := by
  unfold subjectCore
  apply headD_take72
  apply headD_stripTrailDot
  have h := headD_dropWhile (fun c => c == '-' || c == '•' || pyIsSpace c)
    (bullets.headD "Update").data (by decide)
  unfold stripLeadMarks
  unfold isDashBullet
  simp only [Bool.or_eq_false_iff] at h ⊢
  exact ⟨h.1.1, h.1.2⟩

/-- C4, counterexample: a first bullet ending in two periods leaves the
subject ending in a period: only one trailing period is stripped. -/
theorem c4_trailing_period :
    make_subject Tone.formal ["a.."] 0 = "Update: a."
    ∧ (make_subject Tone.formal ["a.."] 0).data.getLast? = some '.' := by
  exact ⟨by decide, by decide⟩

/-- C4, amended: the subject is the tone-keyed prefix, a space, and the
core; the core is the first bullet (or "Update"), with the leading run of
dashes, bullet markers and whitespace removed, one trailing period
removed, and then cut to 72 characters; hence the core has at most 72
characters and never starts with a dash or bullet marker. The
single-period strip happens before the cut, so the subject can still end
with a period (two trailing periods, or a cut at character 72). -/
theorem c4_subject_structure (tone : Tone) (bullets : List String) (k : Nat) :
    make_subject tone bullets k
      = pyStripStr (pick (EMAIL_SUBJECT_PREFIX tone) k ++ " "
          ++ String.mk (subjectCore bullets))
    ∧ (subjectCore bullets).length ≤ 72
    ∧ isDashBullet ((subjectCore bullets).headD 'x') = false
    ∧ (∀ l : List Char, stripTrailDot (l ++ ['.']) = l) := by
  refine ⟨rfl, ?_, subjectCore_no_lead_mark bullets, ?_⟩
  · exact List.length_take_le _ _
  · intro l
    unfold stripTrailDot
    rw [if_pos (List.getLast?_concat l), List.dropLast_concat]

/-- C5: the composed variant has a subject exactly when the medium is email
and `add_subject` is set, and a present subject is never the empty
string. -/
theorem c5_subject_iff (text : String) (tone : Tone) (medium : Medium) (len : Length)
    (locale : Locale) (ib asb : Bool) (o : Oracle) :
    (compose_message text tone medium len locale ib asb o).subject.isSome
        = (decide (medium = Medium.email) && asb)
    ∧ (compose_message text tone medium len locale ib asb o).subject.all
        (fun s => !(s == "")) = true := by
  unfold compose_message
  by_cases h : medium = Medium.email ∧ asb = true
  · rw [if_pos h]
    refine ⟨by simp [h.1, h.2], ?_⟩
    have hne := make_subject_ne_empty tone (to_bullets text) o.subject
    simp [Option.all, hne]
  · rw [if_neg h]
    constructor
    · by_cases hm : medium = Medium.email
      · have hasb : asb = false := by
          cases hasb : asb
          · rfl
          · exact absurd ⟨hm, hasb⟩ h
        simp [hm, hasb]
      · simp [hm]
    · rfl

/-- C6: for the doc medium the sign-off bank yields the empty string, so no
sign-off part enters the body and the message is the join of the parts
before the sign-off step. -/
theorem c6_doc_no_signoff (text : String) (tone : Tone) (len : Length) (locale : Locale)
    (ib asb : Bool) (o : Oracle) :
    sign_off Medium.doc o.signoff = ""
    ∧ body_parts text tone Medium.doc len locale ib o
        = preParts text tone Medium.doc len locale ib o
    ∧ (compose_message text tone Medium.doc len locale ib asb o).message
        = joinSep "\n\n" ((preParts text tone Medium.doc len locale ib o).filter
            (fun p => !(p == ""))) := by
  have h0 : sign_off Medium.doc o.signoff = "" := by
    show pick [""] o.signoff = ""
    unfold pick
    simp [Nat.mod_one]
  have h1 : body_parts text tone Medium.doc len locale ib o
      = preParts text tone Medium.doc len locale ib o := by
    unfold body_parts
    rw [h0]
    simp
  refine ⟨h0, h1, ?_⟩
  unfold compose_message
  rw [h1]

/-- C7: with the executive tone and medium email or doc, the bullet block
is one of the body parts (and survives the non-empty filter joined into the
message) even though `include_bullets` is false, whenever at least one
bullet was extracted. -/
theorem c7_exec_bullet_block (text : String) (len : Length) (locale : Locale)
    (o : Oracle) (hb : to_bullets text ≠ []) :
    bulletBlock (to_bullets text)
        ∈ body_parts text Tone.executive Medium.email len locale false o
    ∧ bulletBlock (to_bullets text)
        ∈ body_parts text Tone.executive Medium.doc len locale false o
    ∧ bulletBlock (to_bullets text)
        ∈ (body_parts text Tone.executive Medium.email len locale false o).filter
            (fun p => !(p == ""))
    ∧ bulletBlock (to_bullets text)
        ∈ (body_parts text Tone.executive Medium.doc len locale false o).filter
            (fun p => !(p == ""))
    ∧ (bulletBlock (to_bullets text) == "") = false := by
  have hne : (bulletBlock (to_bullets text) == "") = false := by
    obtain ⟨b, bs, hbs⟩ : ∃ b bs, to_bullets text = b :: bs := by
      cases hcase : to_bullets text with
      | nil => exact absurd hcase hb
      | cons b bs => exact ⟨b, bs, rfl⟩
    unfold bulletBlock
    rw [hbs]
    rw [show (5 : Nat) = 4 + 1 from rfl, List.take_succ_cons, List.map_cons]
    obtain ⟨t, ht⟩ :=
      joinSep_cons_data "\n" ("• " ++ b) ((List.take 4 bs).map fun b => "• " ++ b)
    apply str_ne_empty
    rw [ht, String.data_append]
    simp
  have hmem : ∀ medium : Medium,
      (medium = Medium.email ∨ medium = Medium.doc) →
      bulletBlock (to_bullets text)
        ∈ body_parts text Tone.executive medium len locale false o := by
    intro medium hm
    rcases hm with rfl | rfl <;>
    · simp only [body_parts, preParts]
      simp [hb, List.mem_append]
  have he := hmem Medium.email (Or.inl rfl)
  have hd := hmem Medium.doc (Or.inr rfl)
  refine ⟨he, hd, ?_, ?_, hne⟩
  · exact List.mem_filter.mpr ⟨he, by simp [hne]⟩
  · exact List.mem_filter.mpr ⟨hd, by simp [hne]⟩

/-- C7 witness at a concrete input. -/
theorem c7_exec_bullet_block_witness :
    bulletBlock (to_bullets "a")
      ∈ body_parts "a" Tone.executive Medium.email Length.short Locale.Generic
          false ⟨0, 0, 0, 0, 0⟩ :=
  (c7_exec_bullet_block "a" Length.short Locale.Generic ⟨0, 0, 0, 0, 0⟩ (by decide)).1

/-- C10, counterexample: for the slack medium the returned reply is the
bank entry with its em-dash rewritten, so the reply list is not a prefix of
the bank. -/
theorem c10_slack_not_prefix :
    reply_suggestions RStyle.pushback Medium.slack 1
      = ["Thanks - timeline is tight. Can we prioritize the critical path and revisit the rest next sprint?"]
    ∧ decide (reply_suggestions RStyle.pushback Medium.slack 1
        <+: style_map RStyle.pushback) = false := by
  exact ⟨by decide, by decide⟩

/-- C10, amended: every style bank has exactly 3 entries; for any requested
count in 1..6 the reply list has length `min requested 3` and is the
`min requested 3` prefix of the bank after the em-dash normalization of the
medium; for mediums other than slack and teams it is a literal prefix of
the bank. -/
theorem c10_bank_prefix (style : RStyle) (medium : Medium) (n : Nat)
    (h1 : 1 ≤ n) (h6 : n ≤ 6) :
    (style_map style).length = 3
    ∧ (reply_suggestions style medium n).length = min n 3
    ∧ ((medium = Medium.slack ∨ medium = Medium.teams) →
        reply_suggestions style medium n
          = ((style_map style).take (min n 3)).map (fun r => pyReplace r "—" " - "))
    ∧ (¬(medium = Medium.slack ∨ medium = Medium.teams) →
        reply_suggestions style medium n <+: style_map style) := by
  have hb : (style_map style).length = 3 := by cases style <;> rfl
  have hmin : min (min n 3) 3 = min n 3 := by
    rw [Nat.min_assoc]
    norm_num
  refine ⟨hb, ?_, ?_, ?_⟩
  · simp only [reply_suggestions]
    by_cases h : medium = Medium.slack ∨ medium = Medium.teams
    · rw [if_pos h, List.length_map, List.length_take, hb]
      exact hmin
    · rw [if_neg h, List.length_take, hb]
      exact hmin
  · intro h
    simp only [reply_suggestions]
    rw [if_pos h, hb]
  · intro h
    simp only [reply_suggestions]
    rw [if_neg h, hb]
    exact List.take_prefix _ _

/-! ### Bullet extractor lemmas, leading to C3

The plan: every fragment produced by the split contains no delimiter
(no newline, no semicolon, no whitespace-hyphen-whitespace window), and a
stripped bullet neither starts nor ends with a strip character. Joining
such bullets with newlines and splitting again recovers exactly the
bullets, and the remaining stages (filter, strip, dedup, cap) are identity
on them, provided every bullet has a non-whitespace character. -/

theorem consHead_ne_nil (c : Char) (X : List (List Char)) : consHead c X ≠ [] := by
  cases X <;> simp [consHead]

theorem splitGo_ne_nil (k : Nat) (l : List Char) : splitGo k l ≠ [] := by
  induction k, l using splitGo.induct with
  | case1 k c cs ih => simpa [splitGo] using ih
  | case2 x => simp [splitGo]
  | case3 c cs h ih => simp [splitGo, h]
  | case4 c cs h1 h2 ih =>
    rw [show splitGo 0 (c :: cs) = [] :: splitGo 2 cs by
      rw [splitGo]; rw [if_neg (by simpa using h1), if_pos h2]]
    simp
  | case5 c cs h1 h2 ih =>
    rw [show splitGo 0 (c :: cs) = consHead c (splitGo 0 cs) by
      rw [splitGo]; rw [if_neg (by simpa using h1), if_neg h2]]
    exact consHead_ne_nil _ _

theorem splitGo_headD_prefix (k : Nat) (l : List Char) :
    (splitGo k l).headD [] <+: l.drop k := by
  induction k, l using splitGo.induct with
  | case1 k c cs ih =>
    rw [show splitGo (k + 1) (c :: cs) = splitGo k cs from by rw [splitGo],
      List.drop_succ_cons]
    exact ih
  | case2 x => simp [splitGo]
  | case3 c cs h ih => simp [splitGo, h]
  | case4 c cs h1 h2 ih =>
    rw [show splitGo 0 (c :: cs) = [] :: splitGo 2 cs by
      rw [splitGo]; rw [if_neg (by simpa using h1), if_pos h2]]
    simp
  | case5 c cs h1 h2 ih =>
    rw [show splitGo 0 (c :: cs) = consHead c (splitGo 0 cs) by
      rw [splitGo]; rw [if_neg (by simpa using h1), if_neg h2]]
    obtain ⟨h, t, hs⟩ : ∃ h t, splitGo 0 cs = h :: t := by
      cases hcase : splitGo 0 cs with
      | nil => exact absurd hcase (splitGo_ne_nil 0 cs)
      | cons h t => exact ⟨h, t, rfl⟩
    rw [hs]
    show (c :: h) <+: (c :: cs).drop 0
    rw [List.drop_zero]
    have hp : h <+: cs := by
      have := ih
      rw [hs, List.drop_zero] at this
      simpa using this
    obtain ⟨w, hw⟩ := hp
    exact ⟨w, by rw [← hw]; rfl⟩

theorem isSDSAt_append (l w : List Char) (h : isSDSAt l = true) :
    isSDSAt (l ++ w) = true := by
  cases l with
  | nil => simp [isSDSAt] at h
  | cons c l1 =>
    cases l1 with
    | nil => simp [isSDSAt] at h
    | cons d l2 =>
      cases l2 with
      | nil => simp [isSDSAt] at h
      | cons e l3 => simpa [isSDSAt] using h

theorem hasSDS_append_right (u w : List Char) (h : hasSDS u = true) :
    hasSDS (u ++ w) = true := by
  induction u with
  | nil => simp [hasSDS] at h
  | cons c cs ih =>
    rw [List.cons_append, hasSDS]
    rw [hasSDS] at h
    rcases Bool.or_eq_true_iff.mp h with h1 | h1
    · have hx := isSDSAt_append (c :: cs) w h1
      rw [List.cons_append] at hx
      rw [hx]
      rfl
    · rw [ih h1]
      simp

theorem hasSDS_append_left (u v : List Char) (h : hasSDS v = true) :
    hasSDS (u ++ v) = true := by
  induction u with
  | nil => simpa using h
  | cons c cs ih =>
    rw [List.cons_append, hasSDS, ih]
    simp

theorem hasSDS_of_within (u v : List Char) (hi : u <:+: v) (h : hasSDS u = true) :
    hasSDS v = true := by
  obtain ⟨s, t, rfl⟩ := hi
  rw [List.append_assoc]
  exact hasSDS_append_left s _ (hasSDS_append_right u t h)

/-- Every fragment of the split is free of the three delimiters. -/
theorem splitGo_clean (k : Nat) (l : List Char) :
    ∀ f ∈ splitGo k l, '\n' ∉ f ∧ ';' ∉ f ∧ hasSDS f = false := by
  induction k, l using splitGo.induct with
  | case1 k c cs ih =>
    rw [show splitGo (k + 1) (c :: cs) = splitGo k cs from by rw [splitGo]]
    exact ih
  | case2 x =>
    intro f hf
    rw [show splitGo x [] = [[]] from by cases x <;> rw [splitGo]] at hf
    simp at hf
    subst hf
    exact ⟨by simp, by simp, rfl⟩
  | case3 c cs h ih =>
    intro f hf
    rw [show splitGo 0 (c :: cs) = [] :: splitGo 0 cs by rw [splitGo]; rw [if_pos h]] at hf
    rcases List.mem_cons.mp hf with rfl | hf
    · exact ⟨by simp, by simp, rfl⟩
    · exact ih f hf
  | case4 c cs h1 h2 ih =>
    intro f hf
    rw [show splitGo 0 (c :: cs) = [] :: splitGo 2 cs by
      rw [splitGo]; rw [if_neg (by simpa using h1), if_pos h2]] at hf
    rcases List.mem_cons.mp hf with rfl | hf
    · exact ⟨by simp, by simp, rfl⟩
    · exact ih f hf
  | case5 c cs h1 h2 ih =>
    intro f hf
    rw [show splitGo 0 (c :: cs) = consHead c (splitGo 0 cs) by
      rw [splitGo]; rw [if_neg (by simpa using h1), if_neg h2]] at hf
    obtain ⟨h, t, hs⟩ : ∃ h t, splitGo 0 cs = h :: t := by
      cases hcase : splitGo 0 cs with
      | nil => exact absurd hcase (splitGo_ne_nil 0 cs)
      | cons h t => exact ⟨h, t, rfl⟩
    rw [hs, consHead] at hf
    have hcn : ¬(c = '\n' ∨ c = ';') := by
      intro hc
      apply h1
      rcases hc with rfl | rfl <;> simp
    rcases List.mem_cons.mp hf with rfl | hf
    · have hh := ih h (by rw [hs]; exact List.mem_cons_self _ _)
      have hsds : isSDSAt (c :: h) = false := by
        cases h with
        | nil => rfl
        | cons d hr =>
          cases hr with
          | nil => rfl
          | cons e hr2 =>
            have hpre : (d :: e :: hr2) <+: cs := by
              have hx := splitGo_headD_prefix 0 cs
              rw [hs, List.drop_zero] at hx
              simpa using hx
            obtain ⟨w, hw⟩ := hpre
            have hcs : isSDSAt (c :: cs) = false := by simpa using h2
            rw [← hw] at hcs
            simpa [isSDSAt] using hcs
      refine ⟨?_, ?_, ?_⟩
      · intro hm
        rcases List.mem_cons.mp hm with rfl | hm
        · exact hcn (Or.inl rfl)
        · exact hh.1 hm
      · intro hm
        rcases List.mem_cons.mp hm with rfl | hm
        · exact hcn (Or.inr rfl)
        · exact hh.2.1 hm
      · rw [hasSDS, hsds, hh.2.2]
        rfl
    · exact ih f (by rw [hs]; exact List.mem_cons_of_mem _ hf)

theorem head?_dropWhile (p : Char → Bool) (l : List Char) (c : Char)
    (h : (l.dropWhile p).head? = some c) : p c = false := by
  induction l with
  | nil => simp at h
  | cons a as ih =>
    rw [List.dropWhile_cons] at h
    by_cases ha : p a = true
    · rw [if_pos ha] at h
      exact ih h
    · rw [if_neg ha] at h
      simp only [List.head?_cons, Option.some.injEq] at h
      subst h
      simpa using ha

theorem getLast?_suffix (l' l : List Char) (hs : l' <:+ l) (c : Char)
    (h : l'.getLast? = some c) : l.getLast? = some c := by
  obtain ⟨u, rfl⟩ := hs
  have hne : l' ≠ [] := by
    intro he
    subst he
    simp at h
  rw [List.getLast?_append_of_ne_nil u hne]
  exact h

theorem pyStrip_head? (p : Char → Bool) (l : List Char) (c : Char)
    (h : (pyStrip p l).head? = some c) : p c = false := by
  unfold pyStrip at h
  rw [List.head?_reverse] at h
  have h2 := getLast?_suffix _ _ (List.dropWhile_suffix p) c h
  rw [List.getLast?_reverse] at h2
  exact head?_dropWhile p l c h2

theorem pyStrip_getLast? (p : Char → Bool) (l : List Char) (c : Char)
    (h : (pyStrip p l).getLast? = some c) : p c = false := by
  unfold pyStrip at h
  rw [List.getLast?_reverse] at h
  exact head?_dropWhile p _ c h

theorem dropWhile_eq_self_of_head (p : Char → Bool) (l : List Char)
    (h : ∀ c, l.head? = some c → p c = false) : l.dropWhile p = l := by
  cases l with
  | nil => rfl
  | cons a as =>
    have ha := h a rfl
    rw [List.dropWhile_cons, if_neg (by simp [ha])]

theorem pyStrip_id (p : Char → Bool) (l : List Char)
    (hh : ∀ c, l.head? = some c → p c = false)
    (hl : ∀ c, l.getLast? = some c → p c = false) : pyStrip p l = l := by
  unfold pyStrip
  rw [dropWhile_eq_self_of_head p l hh]
  rw [dropWhile_eq_self_of_head p l.reverse
    (by intro c hc; apply hl; rwa [List.head?_reverse] at hc)]
  exact List.reverse_reverse l

theorem pyStrip_within (p : Char → Bool) (l : List Char) : pyStrip p l <:+: l := by
  unfold pyStrip
  have h1 : List.dropWhile p l <:+ l := List.dropWhile_suffix p
  have h2 : List.dropWhile p (List.dropWhile p l).reverse
      <:+ (List.dropWhile p l).reverse := List.dropWhile_suffix p
  have h3 : (List.dropWhile p (List.dropWhile p l).reverse).reverse
      <+: List.dropWhile p l := by
    rw [← List.reverse_suffix, List.reverse_reverse]
    exact h2
  exact h3.isInfix.trans h1.isInfix

theorem splitGo_single (l : List Char)
    (h : '\n' ∉ l ∧ ';' ∉ l ∧ hasSDS l = false) : splitGo 0 l = [l] := by
  induction l with
  | nil => rfl
  | cons c cs ih =>
    obtain ⟨h1, h2, h3⟩ := h
    rw [List.mem_cons, not_or] at h1 h2
    rw [hasSDS, Bool.or_eq_false_iff] at h3
    rw [splitGo]
    rw [if_neg (by
      simp only [Bool.or_eq_true, beq_iff_eq]
      rintro (rfl | rfl)
      · exact h1.1 rfl
      · exact h2.1 rfl)]
    rw [if_neg (by simp [h3.1])]
    rw [ih ⟨h1.2, h2.2, h3.2⟩]
    rfl

theorem splitGo_append_bullet (b r : List Char)
    (hclean : '\n' ∉ b ∧ ';' ∉ b ∧ hasSDS b = false)
    (hdash : b.getLast? ≠ some '-') :
    splitGo 0 (b ++ '\n' :: r) = b :: splitGo 0 r := by
  revert hclean hdash
  induction b with
  | nil =>
    intro hclean hdash
    show splitGo 0 ('\n' :: r) = [] :: splitGo 0 r
    rw [splitGo, if_pos (by simp)]
  | cons c cs ih =>
    intro hclean hdash
    obtain ⟨h1, h2, h3⟩ := hclean
    rw [List.mem_cons, not_or] at h1 h2
    rw [hasSDS, Bool.or_eq_false_iff] at h3
    have hcemit : ¬((c == '\n' || c == ';') = true) := by
      simp only [Bool.or_eq_true, beq_iff_eq]
      rintro (rfl | rfl)
      · exact h1.1 rfl
      · exact h2.1 rfl
    have hsds : ¬(isSDSAt (c :: (cs ++ '\n' :: r)) = true) := by
      cases cs with
      | nil =>
        cases r with
        | nil => simp [isSDSAt]
        | cons x xs => simp [isSDSAt]
      | cons d ds =>
        cases ds with
        | nil =>
          have hd : ¬(d = '-') := by
            intro hd
            apply hdash
            rw [List.getLast?_cons_cons]
            simp [hd]
          simp [isSDSAt, hd]
        | cons e es =>
          have hx : isSDSAt (c :: d :: e :: es) = false := h3.1
          simp only [isSDSAt] at hx ⊢
          simp [hx]
    rw [List.cons_append, splitGo, if_neg hcemit, if_neg hsds]
    cases cs with
    | nil =>
      rw [show splitGo 0 ([] ++ '\n' :: r) = [] :: splitGo 0 r by
        rw [List.nil_append, splitGo, if_pos (by simp)]]
      rfl
    | cons d ds =>
      have hgl : (d :: ds).getLast? ≠ some '-' := by
        intro hx
        apply hdash
        rw [List.getLast?_cons_cons]
        exact hx
      rw [ih ⟨h1.2, h2.2, h3.2⟩ hgl]
      rfl

theorem splitGo_join (B : List (List Char)) (hne : B ≠ [])
    (h : ∀ b ∈ B, ('\n' ∉ b ∧ ';' ∉ b ∧ hasSDS b = false) ∧ b.getLast? ≠ some '-') :
    splitGo 0 (joinNLData B) = B := by
  induction B with
  | nil => exact absurd rfl hne
  | cons b B' ih =>
    cases B' with
    | nil =>
      show splitGo 0 (joinNLData [b]) = [b]
      have hb := h b (List.mem_cons_self _ _)
      exact splitGo_single b hb.1
    | cons b2 B2 =>
      show splitGo 0 (b ++ '\n' :: joinNLData (b2 :: B2)) = b :: (b2 :: B2)
      have hb := h b (List.mem_cons_self _ _)
      rw [splitGo_append_bullet b _ hb.1 hb.2]
      rw [ih (by simp) (fun x hx => h x (List.mem_cons_of_mem _ hx))]

theorem dedupAux_subset (L : List (List Char)) :
    ∀ seen, ∀ x ∈ dedupAux seen L, x ∈ L := by
  induction L with
  | nil =>
    intro seen x hx
    simp [dedupAux] at hx
  | cons b bs ih =>
    intro seen x hx
    simp only [dedupAux] at hx
    by_cases hk : (b.map Char.toLower) ∈ seen
    · rw [if_pos hk] at hx
      exact List.mem_cons_of_mem _ (ih seen x hx)
    · rw [if_neg hk] at hx
      rcases List.mem_cons.mp hx with rfl | hx
      · exact List.mem_cons_self _ _
      · exact List.mem_cons_of_mem _ (ih _ x hx)

theorem dedupAux_keys (L : List (List Char)) :
    ∀ seen, (∀ x ∈ dedupAux seen L, x.map Char.toLower ∉ seen)
      ∧ ((dedupAux seen L).map (fun b => b.map Char.toLower)).Nodup := by
  induction L with
  | nil =>
    intro seen
    constructor
    · intro x hx
      simp [dedupAux] at hx
    · simp [dedupAux]
  | cons b bs ih =>
    intro seen
    simp only [dedupAux]
    by_cases hk : (b.map Char.toLower) ∈ seen
    · rw [if_pos hk]
      exact ih seen
    · rw [if_neg hk]
      obtain ⟨ih1, ih2⟩ := ih (b.map Char.toLower :: seen)
      constructor
      · intro x hx
        rcases List.mem_cons.mp hx with rfl | hx
        · exact hk
        · intro hxs
          exact ih1 x hx (List.mem_cons_of_mem _ hxs)
      · rw [List.map_cons, List.nodup_cons]
        refine ⟨?_, ih2⟩
        intro hmem
        obtain ⟨y, hy, hky⟩ := List.mem_map.mp hmem
        exact ih1 y hy (by rw [hky]; exact List.mem_cons_self _ _)

theorem dedupAux_eq_self (L : List (List Char)) :
    ∀ seen, (∀ b ∈ L, b.map Char.toLower ∉ seen)
      → (L.map (fun b => b.map Char.toLower)).Nodup
      → dedupAux seen L = L := by
  induction L with
  | nil => intro seen h1 h2; rfl
  | cons b bs ih =>
    intro seen h1 h2
    rw [List.map_cons, List.nodup_cons] at h2
    simp only [dedupAux]
    rw [if_neg (h1 b (List.mem_cons_self _ _))]
    congr 1
    apply ih
    · intro x hx hmem
      rcases List.mem_cons.mp hmem with heq | hmem2
      · exact h2.1 (heq ▸ List.mem_map_of_mem _ hx)
      · exact h1 x (List.mem_cons_of_mem _ hx) hmem2
    · exact h2.2

/-- Every extracted bullet is delimiter-free and neither starts nor ends
with a strip character. -/
theorem to_bulletsData_props (t : List Char) :
    ∀ b ∈ to_bulletsData t,
      ('\n' ∉ b ∧ ';' ∉ b ∧ hasSDS b = false)
      ∧ (∀ c, b.head? = some c → isStripChar c = false)
      ∧ (∀ c, b.getLast? = some c → isStripChar c = false) := by
  intro b hb
  simp only [to_bulletsData] at hb
  have hb1 := List.mem_of_mem_take hb
  have hb2 := dedupAux_subset _ [] b hb1
  obtain ⟨f, hf, rfl⟩ := List.mem_map.mp hb2
  have hfr : f ∈ splitGo 0 t := (List.mem_filter.mp hf).1
  have hcl := splitGo_clean 0 t f hfr
  have hinf := pyStrip_within isStripChar f
  refine ⟨⟨?_, ?_, ?_⟩, ?_, ?_⟩
  · intro hm
    exact hcl.1 (hinf.subset hm)
  · intro hm
    exact hcl.2.1 (hinf.subset hm)
  · cases hx : hasSDS (pyStrip isStripChar f)
    · rfl
    · exact absurd (hasSDS_of_within _ f hinf hx) (by simp [hcl.2.2])
  · intro c hc
    exact pyStrip_head? _ _ _ hc
  · intro c hc
    exact pyStrip_getLast? _ _ _ hc

theorem to_bulletsData_keys_nodup (t : List Char) :
    ((to_bulletsData t).map (fun b => b.map Char.toLower)).Nodup := by
  simp only [to_bulletsData]
  rw [List.map_take]
  exact List.Nodup.sublist (List.take_sublist _ _) ((dedupAux_keys _ []).2)

/-- Idempotence of the bullet pipeline at the character-list level, under
the hypothesis that every extracted bullet has a non-whitespace
character. -/
theorem to_bulletsData_idem (t : List Char)
    (H : ∀ b ∈ to_bulletsData t, b.any (fun c => !pyIsSpace c) = true) :
    to_bulletsData (joinNLData (to_bulletsData t)) = to_bulletsData t := by
  by_cases hBne : to_bulletsData t = []
  · rw [hBne]
    decide
  · have hprops := to_bulletsData_props t
    have hne : ∀ b ∈ to_bulletsData t, b ≠ [] := by
      intro b hb he
      have hx := H b hb
      rw [he] at hx
      simp at hx
    have h1 : splitGo 0 (joinNLData (to_bulletsData t)) = to_bulletsData t := by
      apply splitGo_join _ hBne
      intro b hb
      refine ⟨(hprops b hb).1, ?_⟩
      intro hx
      have hy := (hprops b hb).2.2 '-' hx
      simp [isStripChar] at hy
    have h2 : (to_bulletsData t).filter
        (fun x => !x.isEmpty && x.any (fun c => !pyIsSpace c)) = to_bulletsData t := by
      apply List.filter_eq_self.mpr
      intro b hb
      have hie : b.isEmpty = false := by
        cases hbx : b
        · exact absurd hbx (hne _ hb)
        · rfl
      rw [H b hb, hie]
      rfl
    have h3 : (to_bulletsData t).map (pyStrip isStripChar) = to_bulletsData t := by
      have hid : ∀ b ∈ to_bulletsData t, pyStrip isStripChar b = b := by
        intro b hb
        exact pyStrip_id _ _ (fun c hc => (hprops b hb).2.1 c hc)
          (fun c hc => (hprops b hb).2.2 c hc)
      calc (to_bulletsData t).map (pyStrip isStripChar)
          = (to_bulletsData t).map id := List.map_congr_left hid
        _ = to_bulletsData t := List.map_id _
    have h4 : dedupAux [] (to_bulletsData t) = to_bulletsData t := by
      apply dedupAux_eq_self
      · intro b hb
        simp
      · exact to_bulletsData_keys_nodup t
    have h5 : (to_bulletsData t).take 8 = to_bulletsData t := by
      conv_lhs => rw [to_bulletsData]
      simp only [to_bulletsData]
      rw [List.take_take]
      norm_num
    show (dedupAux [] (((splitGo 0 (joinNLData (to_bulletsData t))).filter
        (fun x => !x.isEmpty && x.any (fun c => !pyIsSpace c))).map
          (pyStrip isStripChar))).take 8 = to_bulletsData t
    rw [h1, h2, h3, h4]
    exact h5

theorem joinNL_data (L : List (List Char)) :
    (joinNL (L.map String.mk)).data = joinNLData L := by
  induction L with
  | nil => rfl
  | cons x xs ih =>
    cases xs with
    | nil => rfl
    | cons y ys =>
      show ((String.mk x ++ "\n") ++ joinNL (List.map String.mk (y :: ys))).data
          = x ++ '\n' :: joinNLData (y :: ys)
      rw [String.data_append, String.data_append, ih]
      rw [List.append_assoc]
      rfl

/-- C3, counterexample: the input consisting of one hyphen produces the
single empty bullet, and re-running the extractor on the joined bullets
(the empty string) yields no bullets at all. -/
theorem c3_whitespace_bullet_cex :
    to_bullets "-" = [""] ∧ to_bullets (joinNL (to_bullets "-")) = [] := by
  exact ⟨by decide, by decide⟩

/-- C3, amended: the bullet extractor is idempotent on its newline-joined
output, provided every extracted bullet contains a non-whitespace
character (bullets consisting only of strip characters or whitespace
violate the property, as the counterexample shows). -/
theorem c3_bullets_idem (t : String)
    (H : ∀ b ∈ to_bullets t, b.data.any (fun c => !pyIsSpace c) = true) :
    to_bullets (joinNL (to_bullets t)) = to_bullets t := by
  have Hd : ∀ b ∈ to_bulletsData t.data, b.any (fun c => !pyIsSpace c) = true := by
    intro b hb
    have hx := H (String.mk b) (by
      unfold to_bullets
      exact List.mem_map_of_mem _ hb)
    simpa using hx
  unfold to_bullets
  rw [show (joinNL ((to_bulletsData t.data).map String.mk)).data
      = joinNLData (to_bulletsData t.data) from joinNL_data _]
  rw [to_bulletsData_idem t.data Hd]

/-- C3 witness at a concrete input whose bullets are all non-blank. -/
theorem c3_bullets_idem_witness :
    to_bullets (joinNL (to_bullets "a; b - c\nA")) = to_bullets "a; b - c\nA" :=
  c3_bullets_idem "a; b - c\nA" (by decide)

/-- C10 witness at a concrete style, medium and count. -/
theorem c10_bank_prefix_witness :
    (style_map RStyle.neutral).length = 3
    ∧ (reply_suggestions RStyle.neutral Medium.email 4).length = min 4 3
    ∧ reply_suggestions RStyle.neutral Medium.email 4 <+: style_map RStyle.neutral := by
  have h := c10_bank_prefix RStyle.neutral Medium.email 4 (by decide) (by decide)
  exact ⟨h.1, h.2.1, h.2.2.2 (by decide)⟩

end Buzz
